import Mathlib

/-!
Shallow embedding of the two detection engines of the DataRecce/dbt-tpch
repository (scripts/detect_base_mode.py and scripts/compiled_sql_diff.py),
together with theorems settling the frozen claims about them.

Texts (SQL / Jinja sources) are embedded as `List Char`.  Python regular
expressions from the source are embedded as specialised scanners that
reproduce `re.search` / `re.sub` semantics (left-to-right scan,
non-overlapping matches, continuation after the replaced span, `\b`
word-boundary tests against the original neighbouring character).
Word characters are the ASCII `[A-Za-z0-9_]` of the regex `\w` class and
`\s` is the ASCII whitespace class of the regex `\s`; all inputs of the
repository are ASCII SQL text.
-/

set_option maxRecDepth 16384

namespace DbtTpch

/-- Single-quote character, written by code point to keep SQL literals
    out of the Lean string literals. -/
def squote : Char := Char.ofNat 39

/-- Double-quote character, written by code point. -/
def dquote : Char := Char.ofNat 34

/-- ASCII word character, the `\w` class used by the `\b` boundaries in
    `CONDITIONAL_PATTERNS` of scripts/detect_base_mode.py. -/
def isWordChar (c : Char) : Bool := c.isAlphanum || c == '_'

/-- ASCII whitespace, the `\s` class of the scanner regexes. -/
def isPySpace (c : Char) : Bool :=
  c == ' ' || c == '\t' || c == '\n' || c == '\r' || c == '\x0b' || c == '\x0c'

/-- Word-boundary test of `\b` placed before the character `c`, where
    `prev` is the character preceding the match position (`none` at the
    start of the text). -/
def boundaryAt (prev : Option Char) (c : Char) : Bool :=
  match prev with
  | none => isWordChar c
  | some p => isWordChar p != isWordChar c

/-- Match a literal character list `P` at the head of `cs`; on success
    return the remaining text together with the exact length accounting
    (used for termination of the substitution scanners). -/
def dropLit : (P : List Char) → (cs : List Char) →
    Option {r : List Char // r.length + P.length = cs.length}
  | [], cs => some ⟨cs, by simp⟩
  | _ :: _, [] => none
  | l :: ls, c :: cs =>
    if c = l then
      match dropLit ls cs with
      | some ⟨r, h⟩ => some ⟨r, by simp only [List.length_cons]; omega⟩
      | none => none
    else none

/-- Case-insensitive variant of `dropLit` (the pattern is given in lower
    case; text characters are lowered before comparison), embedding the
    `re.IGNORECASE` flag of the clock-function pattern. -/
def dropLitCI : (P : List Char) → (cs : List Char) →
    Option {r : List Char // r.length + P.length = cs.length}
  | [], cs => some ⟨cs, by simp⟩
  | _ :: _, [] => none
  | l :: ls, c :: cs =>
    if c.toLower = l then
      match dropLitCI ls cs with
      | some ⟨r, h⟩ => some ⟨r, by simp only [List.length_cons]; omega⟩
      | none => none
    else none

/-- Greedy `\s*` of the scanner regexes. -/
def dropSpaces (cs : List Char) : List Char := cs.dropWhile isPySpace

/-- Trailing `\b` after a word character: the next character must be a
    non-word character, or the text must end. -/
def boundaryAfterWord (cs : List Char) : Bool :=
  match cs with
  | [] => true
  | c :: _ => !isWordChar c

/-- Trailing `\b` after a non-word character such as `)`: it holds only
    when the next character is a word character (at the end of the text
    it fails). -/
def boundaryAfterNonWord (cs : List Char) : Bool :=
  match cs with
  | [] => false
  | c :: _ => isWordChar c

/-- Generic `re.search` driver: try `check` at every position of the
    text, carrying the previous character for the `\b` tests. -/
def scanWithPrev (check : Option Char → List Char → Bool) :
    Option Char → List Char → Bool
  | prev, [] => check prev []
  | prev, c :: rest => check prev (c :: rest) || scanWithPrev check (some c) rest

/-- Match of `\btarget\s*\.\s*name\b` starting exactly at the given
    position (first signature of `CONDITIONAL_PATTERNS`). -/
def checkTargetNameAt (prev : Option Char) (cs : List Char) : Bool :=
  (match prev with | none => true | some p => !isWordChar p) &&
  (match dropLit "target".data cs with
   | none => false
   | some ⟨r1, _⟩ =>
     match dropLit ['.'] (dropSpaces r1) with
     | none => false
     | some ⟨r2, _⟩ =>
       match dropLit "name".data (dropSpaces r2) with
       | none => false
       | some ⟨r3, _⟩ => boundaryAfterWord r3)

/-- Match of `\btarget\s*\.\s*schema\b` starting exactly at the given
    position (second signature of `CONDITIONAL_PATTERNS`). -/
def checkTargetSchemaAt (prev : Option Char) (cs : List Char) : Bool :=
  (match prev with | none => true | some p => !isWordChar p) &&
  (match dropLit "target".data cs with
   | none => false
   | some ⟨r1, _⟩ =>
     match dropLit ['.'] (dropSpaces r1) with
     | none => false
     | some ⟨r2, _⟩ =>
       match dropLit "schema".data (dropSpaces r2) with
       | none => false
       | some ⟨r3, _⟩ => boundaryAfterWord r3)

/-- Match of the build-time clock pattern
    `\b(current_date|current_timestamp|now\s*\(\s*\)|getdate\s*\(\s*\))\b`
    (case-insensitive) starting exactly at the given position.  The four
    alternatives are tried in the order of the source regex; the leading
    `\b` reduces to a non-word previous character because every
    alternative starts with a word character. -/
def checkTimeAt (prev : Option Char) (cs : List Char) : Bool :=
  (match prev with | none => true | some p => !isWordChar p) &&
  ((match dropLitCI "current_date".data cs with
    | some ⟨r, _⟩ => boundaryAfterWord r
    | none => false) ||
   (match dropLitCI "current_timestamp".data cs with
    | some ⟨r, _⟩ => boundaryAfterWord r
    | none => false) ||
   (match dropLitCI "now".data cs with
    | some ⟨r1, _⟩ =>
      (match dropLit ['('] (dropSpaces r1) with
       | some ⟨r2, _⟩ =>
         (match dropLit [')'] (dropSpaces r2) with
          | some ⟨r3, _⟩ => boundaryAfterNonWord r3
          | none => false)
       | none => false)
    | none => false) ||
   (match dropLitCI "getdate".data cs with
    | some ⟨r1, _⟩ =>
      (match dropLit ['('] (dropSpaces r1) with
       | some ⟨r2, _⟩ =>
         (match dropLit [')'] (dropSpaces r2) with
          | some ⟨r3, _⟩ => boundaryAfterNonWord r3
          | none => false)
       | none => false)
    | none => false))

/-- Search for the `target.name` signature anywhere in the text. -/
def matchTargetName (cs : List Char) : Bool :=
  scanWithPrev checkTargetNameAt none cs

/-- Search for the `target.schema` signature anywhere in the text. -/
def matchTargetSchema (cs : List Char) : Bool :=
  scanWithPrev checkTargetSchemaAt none cs

/-- Search for the `current_date/now` signature anywhere in the text. -/
def matchTimeFn (cs : List Char) : Bool :=
  scanWithPrev checkTimeAt none cs

/-- Locate the first `*/` in the text and return the remainder after it,
    reproducing the non-greedy `.*?\*/` tail of the block-comment regex. -/
def findClose : (cs : List Char) → Option {r : List Char // r.length ≤ cs.length}
  | [] => none
  | '*' :: '/' :: rest => some ⟨rest, by simp only [List.length_cons]; omega⟩
  | _ :: rest =>
    match findClose rest with
    | some ⟨r, h⟩ => some ⟨r, by simp only [List.length_cons]; omega⟩
    | none => none

/-- Recursion worker of `stripBlock`.  The `fuel` argument makes the
    recursion structural (hence kernel-evaluable); every step consumes at
    least one character of the text, so `fuel = length` never runs out
    and the exhausted-fuel branch is unreachable. -/
def stripBlockF : Nat → List Char → List Char
  | 0, cs => cs
  | _ + 1, [] => []
  | fuel + 1, '/' :: '*' :: rest =>
    match findClose rest with
    | some ⟨rest', _⟩ => stripBlockF fuel rest'
    | none => '/' :: '*' :: stripBlockF fuel rest
  | fuel + 1, c :: rest => c :: stripBlockF fuel rest

/-- Embedding of `re.sub(r"/\*.*?\*/", "", code, flags=re.DOTALL)`: every
    block comment from a `/*` to the nearest following `*/` is removed; a
    `/*` with no closing `*/` is kept. -/
def stripBlock (s : List Char) : List Char := stripBlockF s.length s

/-- Recursion worker of `stripLine` (same fuel device as `stripBlockF`). -/
def stripLineF : Nat → List Char → List Char
  | 0, cs => cs
  | _ + 1, [] => []
  | fuel + 1, '-' :: '-' :: rest =>
    stripLineF fuel (rest.dropWhile (fun c => c != '\n'))
  | fuel + 1, c :: rest => c :: stripLineF fuel rest

/-- Embedding of `re.sub(r"--[^\n]*", "", code)`: a `--` and everything
    up to (not including) the next newline is removed. -/
def stripLine (s : List Char) : List Char := stripLineF s.length s

/-- Embedding of `strip_sql_comments` of scripts/detect_base_mode.py:
    block comments are removed first, then line comments. -/
def strip_sql_comments (code : List Char) : List Char :=
  stripLine (stripBlock code)

/-- One manifest node, carrying exactly the fields that the scripts read.
    Fields read through `node.get(...)` with no default are `Option`s
    (an absent key is `none`); fields read with a default are stored as
    `Option` and defaulted at the use site, mirroring the source. -/
structure Node where
  resource_type : Option String
  package_name : Option String
  name : Option String
  path : Option String
  config_materialized : Option String
  config_strategy : Option String
  config_incremental_strategy : Option String
  config_unique_key : Option String
  depends_on_nodes : List String
  raw_code : Option (List Char)
  compiled_code : Option (List Char)
  deriving DecidableEq

/-- One manifest source entry (fields read by `analyze_sources`). -/
structure SourceEntry where
  name : Option String
  source_name : Option String
  config_event_time : Option String
  deriving DecidableEq

/-- A dbt manifest as the scripts see it: project name from
    `metadata.project_name`, plus the `nodes` and `sources` maps.  The
    maps are embedded as insertion-ordered association lists keyed by
    unique id, matching Python dict iteration order. -/
structure Manifest where
  project_name : Option String
  nodes : List (String × Node)
  sources : List (String × SourceEntry)
  deriving DecidableEq

/-- Python dict assignment `d[k] = v` on an insertion-ordered
    association list: an existing key is updated in place, a new key is
    appended. -/
def upsert {α : Type} : List (String × α) → String → α → List (String × α)
  | [], k, v => [(k, v)]
  | (k', v') :: rest, k, v =>
    if k' = k then (k, v) :: rest else (k', v') :: upsert rest k v

/-- Model record retained by `analyze_models` (the dict stored under
    `models[name]`). -/
structure ModelRec where
  materialized : String
  path : String
  depends_on : List String
  raw_code : List Char
  deriving DecidableEq

/-- Incremental-model summary record of `analyze_models`. -/
structure IncRec where
  name : String
  path : String
  strategy : Option String
  unique_key : Option String
  deriving DecidableEq

/-- Snapshot summary record of `analyze_models`. -/
structure SnapRec where
  name : String
  path : String
  strategy : Option String
  deriving DecidableEq

/-- The five materialization buckets of `analyze_models`. -/
structure MatCounts where
  table : Nat
  view : Nat
  ephemeral : Nat
  incremental : Nat
  other : Nat
  deriving DecidableEq

/-- Initial bucket counts. -/
def initCounts : MatCounts := ⟨0, 0, 0, 0, 0⟩

/-- Sum of the five materialization buckets. -/
def bucketSum (c : MatCounts) : Nat :=
  c.table + c.view + c.ephemeral + c.incremental + c.other

/-- Bucket update of `analyze_models`: a known materialization kind goes
    to its own bucket, anything else to `other` (Python:
    `if mat in materialization_counts: counts[mat] += 1 else counts["other"] += 1`;
    the literal key `"other"` takes the first branch with the same effect). -/
def bumpMat (c : MatCounts) (mat : String) : MatCounts :=
  if mat = "table" then { c with table := c.table + 1 }
  else if mat = "view" then { c with view := c.view + 1 }
  else if mat = "ephemeral" then { c with ephemeral := c.ephemeral + 1 }
  else if mat = "incremental" then { c with incremental := c.incremental + 1 }
  else { c with other := c.other + 1 }

/-- Result record of `analyze_models`. -/
structure ModelAnalysis where
  total_models : Nat
  materialization_counts : MatCounts
  incremental_models : List IncRec
  snapshot_models : List SnapRec
  models : List (String × ModelRec)
  deriving DecidableEq

/-- A node is kept by the `analyze_models` / `diff_manifests` filters as
    a model of the project itself. -/
def isRetainedModel (project : Option String) (p : String × Node) : Prop :=
  p.2.resource_type = some "model" ∧ p.2.package_name = project

instance (project : Option String) (p : String × Node) :
    Decidable (isRetainedModel project p) := by
  unfold isRetainedModel; infer_instance

/-- Name under which a retained node is keyed: `node.get("name", unique_id)`. -/
def nodeKeyName (p : String × Node) : String := p.2.name.getD p.1

/-- Loop body state of `analyze_models`, threaded through the nodes in
    manifest order. -/
def amGo (project : Option String) :
    List (String × Node) → MatCounts → List (String × ModelRec) →
    List IncRec → List SnapRec →
    MatCounts × List (String × ModelRec) × List IncRec × List SnapRec
  | [], counts, models, incs, snaps => (counts, models, incs, snaps)
  | (uid, node) :: rest, counts, models, incs, snaps =>
    if ¬(node.resource_type = some "model" ∨ node.resource_type = some "snapshot") then
      amGo project rest counts models incs snaps
    else if node.package_name ≠ project then
      amGo project rest counts models incs snaps
    else
      let name := node.name.getD uid
      let schema_path := node.path.getD ""
      if node.resource_type = some "snapshot" then
        amGo project rest counts models incs
          (snaps ++ [⟨name, schema_path, node.config_strategy⟩])
      else
        let mat := node.config_materialized.getD "unknown"
        let counts' := bumpMat counts mat
        let models' := upsert models name
          ⟨mat, schema_path, node.depends_on_nodes, node.raw_code.getD []⟩
        let incs' := if mat = "incremental" then
            incs ++ [⟨name, schema_path, node.config_incremental_strategy,
                      node.config_unique_key⟩]
          else incs
        amGo project rest counts' models' incs' snaps

/-- Embedding of `analyze_models` of scripts/detect_base_mode.py. -/
def analyze_models (manifest : Manifest) : ModelAnalysis :=
  let r := amGo manifest.project_name manifest.nodes initCounts [] [] []
  { total_models := r.2.1.length
    materialization_counts := r.1
    incremental_models := r.2.2.1
    snapshot_models := r.2.2.2
    models := r.2.1 }

/-- Result record of `analyze_sources` (the per-entry lists are kept as
    names; `classify` and the claims only use the counts). -/
structure SourceAnalysis where
  total_sources : Nat
  with_event_time : Nat
  without_event_time : Nat
  deriving DecidableEq

/-- Truthiness of the `event_time` config value (`if event_time:` in
    Python — absent or empty string is falsy). -/
def eventTimeTruthy (e : Option String) : Bool :=
  match e with
  | none => false
  | some t => t ≠ ""

/-- Embedding of `analyze_sources` of scripts/detect_base_mode.py. -/
def analyze_sources (sources : List (String × SourceEntry)) : SourceAnalysis :=
  { total_sources := sources.length
    with_event_time :=
      (sources.filter (fun p => eventTimeTruthy p.2.config_event_time)).length
    without_event_time :=
      (sources.filter (fun p => !eventTimeTruthy p.2.config_event_time)).length }

/-- One row of the fixed signature table `CONDITIONAL_PATTERNS`. -/
structure PatternSig where
  name : String
  matcher : List Char → Bool
  weight : String
  reason : String

/-- Embedding of `CONDITIONAL_PATTERNS` of scripts/detect_base_mode.py,
    in source order. -/
def CONDITIONAL_PATTERNS : List PatternSig :=
  [ ⟨"target.name", matchTargetName, "strong",
     "SQL varies by target environment - different targets produce different queries"⟩,
    ⟨"target.schema", matchTargetSchema, "strong",
     "SQL varies by target schema - different targets produce different queries"⟩,
    ⟨"current_date/now", matchTimeFn, "moderate",
     "Result depends on build time - builds at different times produce different data"⟩ ]

/-- One matched pattern inside a finding. -/
structure MatchedPattern where
  pattern : String
  weight : String
  reason : String
  deriving DecidableEq

/-- One finding of `scan_sql_patterns`. -/
structure Finding where
  name : String
  materialized : String
  path : String
  patterns : List MatchedPattern
  deriving DecidableEq

/-- Loop body of `scan_sql_patterns` for a single model: skip models
    with empty source, strip SQL comments, then test every signature of
    the table; a model with no matched signature yields no finding. -/
def modelFinding (name : String) (model : ModelRec) : Option Finding :=
  if model.raw_code = [] then none
  else
    let code_only := strip_sql_comments model.raw_code
    let model_patterns :=
      (CONDITIONAL_PATTERNS.filter (fun p => p.matcher code_only)).map
        (fun p => MatchedPattern.mk p.name p.weight p.reason)
    if model_patterns = [] then none
    else some ⟨name, model.materialized, model.path, model_patterns⟩

/-- Embedding of `scan_sql_patterns` of scripts/detect_base_mode.py. -/
def scan_sql_patterns (ma : ModelAnalysis) : List Finding :=
  ma.models.filterMap (fun p => modelFinding p.1 p.2)

/-- The two base-mode recommendations. -/
inductive Recommendation
  | shared_base
  | isolated_base
  deriving DecidableEq

/-- The two confidence levels of `classify`. -/
inductive Confidence
  | high
  | medium
  deriving DecidableEq

/-- One detection signal of `classify`, keeping the decision-relevant
    `signal`, `weight` and `direction` fields (the free-text `value`,
    `detail` and `reason` fields are presentation-only strings built by
    f-string formatting and are not embedded). -/
structure Signal where
  signal : String
  weight : String
  direction : String
  deriving DecidableEq

/-- Event-time coverage percentage of `classify`:
    `with_event_time / total_sources * 100` when there are sources,
    otherwise `0` (Python computes this with exact small-integer
    division; embedded over `ℚ`). -/
def eventTimePct (sa : SourceAnalysis) : ℚ :=
  if sa.total_sources > 0 then
    (sa.with_event_time : ℚ) / (sa.total_sources : ℚ) * 100
  else 0

/-- Incremental models not flagged by the scanner (signal 2 of
    `classify`). -/
def safeIncremental (ma : ModelAnalysis) (fs : List Finding) : List String :=
  (ma.models.filter (fun p =>
    p.2.materialized == "incremental" && !(fs.any (fun f => f.name == p.1)))).map
    (fun p => p.1)

/-- Result record of `classify`; `by_materialization` is the
    `conditional_models` breakdown keyed by materialization kind. -/
structure Classification where
  recommendation : Recommendation
  confidence : Confidence
  signals : List Signal
  conditional_total : Nat
  by_materialization : List (String × Nat)
  deriving DecidableEq

/-- Increment of a Python `dict.get(k, 0) + 1` counter on an
    insertion-ordered association list. -/
def bumpCount : List (String × Nat) → String → List (String × Nat)
  | [], k => [(k, 1)]
  | (k', v) :: rest, k =>
    if k' = k then (k', v + 1) :: rest else (k', v) :: bumpCount rest k

/-- Embedding of `classify` of scripts/detect_base_mode.py: the signal
    list is accumulated in source order, the recommendation is set by
    the pattern-scanner findings alone, and the confidence is resolved
    from the finding count and the event-time coverage. -/
def classify (ma : ModelAnalysis) (sa : SourceAnalysis) (fs : List Finding) :
    Classification :=
  let conditional_count := fs.length
  let total := ma.total_models
  let table_count := ma.materialization_counts.table
  let view_count := ma.materialization_counts.view
  let event_time_pct := eventTimePct sa
  let signals :=
    (if conditional_count > 0 then
      [Signal.mk "non_deterministic_sql" "strong" "isolated_base"]
     else
      [Signal.mk "deterministic_sql" "strong" "shared_base"]) ++
    (if safeIncremental ma fs ≠ [] then
      [Signal.mk "safe_incremental" "moderate" "shared_base"]
     else []) ++
    (if total > 0 ∧ view_count = total ∧ conditional_count = 0 then
      [Signal.mk "all_views" "moderate" "shared_base"]
     else if table_count > 0 ∧ conditional_count = 0 then
      [Signal.mk "table_models" "weak" "shared_base"]
     else []) ++
    (if sa.total_sources > 0 then
      (if event_time_pct = 100 then
        [Signal.mk "event_time_coverage" "moderate" "enables_isolation"]
       else if event_time_pct > 0 then
        [Signal.mk "event_time_coverage" "weak" "partial_isolation"]
       else
        [Signal.mk "event_time_coverage" "moderate" "blocks_sample"])
     else []) ++
    (if total > 50 then
      [Signal.mk "project_scale" "weak" "isolated_base"]
     else [])
  { recommendation :=
      if conditional_count > 0 then Recommendation.isolated_base
      else Recommendation.shared_base
    confidence :=
      if conditional_count > 0 ∧ event_time_pct = 100 then Confidence.high
      else if conditional_count > 0 then Confidence.medium
      else Confidence.high
    signals := signals
    conditional_total := conditional_count
    by_materialization :=
      fs.foldl (fun acc f => bumpCount acc f.materialized) [] }

/-! Embedding of scripts/compiled_sql_diff.py. -/

/-- Generic `re.sub` driver for a fixed nonempty literal pattern
    `p0 :: pt` replaced by `R`: left-to-right scan, non-overlapping
    matches, continuation after the replaced span.  With `useB` the
    match additionally requires a `\b` word boundary in front (checked
    against the original previous character, which after a replacement
    is the last character of the pattern, as in `re.sub`). -/
def substScanF (p0 : Char) (pt R : List Char) (useB : Bool) :
    Nat → Option Char → List Char → List Char
  | 0, _, cs => cs
  | _ + 1, _, [] => []
  | fuel + 1, prev, c :: rest =>
    match dropLit (p0 :: pt) (c :: rest) with
    | some ⟨rest', _⟩ =>
      if !useB || boundaryAt prev c then
        R ++ substScanF p0 pt R useB fuel (some ((p0 :: pt).getLast (by simp))) rest'
      else
        c :: substScanF p0 pt R useB fuel (some c) rest
    | none => c :: substScanF p0 pt R useB fuel (some c) rest

/-- Wrapper running `substScanF` with always-sufficient fuel. -/
def substScan (p0 : Char) (pt R : List Char) (useB : Bool)
    (prev : Option Char) (s : List Char) : List Char :=
  substScanF p0 pt R useB s.length prev s

/-- The dotted pattern `db.schema.` of the first schema rewrite. -/
def dbSchemaPat (db schema : List Char) : List Char :=
  db ++ '.' :: (schema ++ ['.'])

/-- Embedding of
    `re.sub(rf"\b{re.escape(db)}\.{re.escape(schema)}\.", f"{db}.__SCHEMA__.", s)`. -/
def rewriteDbSchema (db schema : List Char) (s : List Char) : List Char :=
  match dbSchemaPat db schema with
  | [] => s
  | p0 :: pt => substScan p0 pt (db ++ ("." ++ "__SCHEMA__" ++ ".").data) true none s

/-- The quoted pattern `"schema"` of the second schema rewrite. -/
def quotedPat (schema : List Char) : List Char :=
  dquote :: (schema ++ [dquote])

/-- Embedding of `re.sub(rf'"{re.escape(schema)}"', '"__SCHEMA__"', s)`. -/
def rewriteQuoted (schema : List Char) (s : List Char) : List Char :=
  substScan dquote (schema ++ [dquote])
    (dquote :: ("__SCHEMA__".data ++ [dquote])) false none s

/-- The two schema rewrites of `normalize_sql`, applied only when both
    the database and the schema name are non-empty
    (`if db_name and schema_name:`). -/
def schemaSteps (db schema : List Char) (s : List Char) : List Char :=
  if db ≠ [] ∧ schema ≠ [] then rewriteQuoted schema (rewriteDbSchema db schema s)
  else s

/-- Character class `[0-9a-f-]` of the batch-id regex. -/
def isBatchIdChar (c : Char) : Bool :=
  (('0' ≤ c && c ≤ '9') || ('a' ≤ c && c ≤ 'f')) || c == '-'

/-- Literal opening `cast('` shared by both batch-metadata regexes. -/
def castOpen : List Char := "cast(".data ++ [squote]

/-- Literal closing of the batch-id regex. -/
def batchIdClose : List Char := squote :: " as varchar) as dbt_batch_id".data

/-- Literal closing of the batch-timestamp regex. -/
def batchTsClose : List Char := squote :: " as timestamp) as dbt_batch_ts".data

/-- Replacement text for a batch-id match. -/
def batchIdRepl : List Char :=
  "cast(".data ++ squote :: "__BATCH_ID__".data ++ batchIdClose

/-- Replacement text for a batch-timestamp match. -/
def batchTsRepl : List Char :=
  "cast(".data ++ squote :: "__BATCH_TS__".data ++ batchTsClose

/-- Match of `cast\('[0-9a-f-]+' as varchar\) as dbt_batch_id` at the
    head of the text (the greedy class cannot backtrack past the quote,
    so the match is the class run followed by the literal closing). -/
def tryBatchId (cs : List Char) : Option {r : List Char // r.length < cs.length} :=
  match dropLit castOpen cs with
  | none => none
  | some ⟨r1, h1⟩ =>
    if (r1.takeWhile isBatchIdChar).isEmpty then none
    else
      match dropLit batchIdClose (r1.dropWhile isBatchIdChar) with
      | none => none
      | some ⟨r3, h3⟩ =>
        some ⟨r3, by
          have h2 := congrArg List.length
            (List.takeWhile_append_dropWhile (p := isBatchIdChar) (l := r1))
          have hco : castOpen.length = 6 := rfl
          simp only [List.length_append] at h2
          omega⟩

/-- Match of `cast\('[^']+' as timestamp\) as dbt_batch_ts` at the head
    of the text. -/
def tryBatchTs (cs : List Char) : Option {r : List Char // r.length < cs.length} :=
  match dropLit castOpen cs with
  | none => none
  | some ⟨r1, h1⟩ =>
    if (r1.takeWhile (fun c => c != squote)).isEmpty then none
    else
      match dropLit batchTsClose (r1.dropWhile (fun c => c != squote)) with
      | none => none
      | some ⟨r3, h3⟩ =>
        some ⟨r3, by
          have h2 := congrArg List.length
            (List.takeWhile_append_dropWhile (p := fun c => c != squote) (l := r1))
          have hco : castOpen.length = 6 := rfl
          simp only [List.length_append] at h2
          omega⟩

/-- `re.sub` driver for the batch-metadata regexes: `tryAt` attempts a
    match at the current position and returns the remainder after it. -/
def scanSubstF (tryAt : (cs : List Char) → Option {r : List Char // r.length < cs.length})
    (R : List Char) : Nat → List Char → List Char
  | 0, cs => cs
  | _ + 1, [] => []
  | fuel + 1, c :: rest =>
    match tryAt (c :: rest) with
    | some ⟨rest', _⟩ => R ++ scanSubstF tryAt R fuel rest'
    | none => c :: scanSubstF tryAt R fuel rest

/-- Wrapper running `scanSubstF` with always-sufficient fuel. -/
def scanSubst (tryAt : (cs : List Char) → Option {r : List Char // r.length < cs.length})
    (R : List Char) (s : List Char) : List Char :=
  scanSubstF tryAt R s.length s

/-- The two batch-metadata rewrites of `normalize_sql`, in source order. -/
def batchSteps (s : List Char) : List Char :=
  scanSubst tryBatchTs batchTsRepl (scanSubst tryBatchId batchIdRepl s)

/-- Embedding of `re.sub(r"[ \t]+\n", "\n", s)` (trailing horizontal
    whitespace before a newline is removed): `pend` accumulates the
    current run of spaces and tabs, which is dropped when a newline
    follows and flushed otherwise. -/
def wsGo : List Char → List Char → List Char
  | pend, [] => pend
  | pend, c :: rest =>
    if c = ' ' ∨ c = '\t' then wsGo (pend ++ [c]) rest
    else if c = '\n' then '\n' :: wsGo [] rest
    else pend ++ c :: wsGo [] rest

/-- Trailing-whitespace normalization step of `normalize_sql`. -/
def wsStrip (s : List Char) : List Char := wsGo [] s

/-- Embedding of `normalize_sql` of scripts/compiled_sql_diff.py (the
    two Bool flags are the `strip_comments` / `strip_batch_metadata`
    keyword arguments, both `True` by default at every call site of the
    source). -/
def normalize_sql (sql : List Char) (db_name schema_name : List Char)
    (strip_comments : Bool) (strip_batch_metadata : Bool) : List Char :=
  let n1 := if strip_comments then strip_sql_comments sql else sql
  let n2 := schemaSteps db_name schema_name n1
  let n3 := if strip_batch_metadata then batchSteps n2 else n2
  wsStrip n3

/-- Status of a diff finding (an identical pair yields no finding). -/
inductive DiffStatus
  | non_deterministic
  | missing_in_base
  | missing_in_current
  deriving DecidableEq

/-- One finding of the diff engine.  `diff_lines` is the changed-lines
    summary extracted from the unified diff; the diff computation itself
    (Python difflib) is abstracted as the `diffFn` parameter of the
    engines, so every theorem below holds for any diff function.
    `materialized` is present only on manifest-mode content findings. -/
structure DiffFinding where
  model : String
  path : String
  materialized : Option String
  status : DiffStatus
  diff_lines : List (List Char)
  deriving DecidableEq

/-- Stem of a relative path (file name of the last component without
    its extension), as `PurePath.stem`. -/
def pathStem (p : String) : String :=
  let base := ((p.splitOn "/").getLastD p)
  let pieces := base.splitOn "."
  if pieces.length ≤ 1 then base
  else String.intercalate "." (pieces.dropLast)

/-- Insertion of a path-keyed pair into a list sorted by path. -/
def insertByPath {α : Type} (x : String × α) :
    List (String × α) → List (String × α)
  | [] => [x]
  | y :: rest =>
    if x.1 ≤ y.1 then x :: y :: rest else y :: insertByPath x rest

/-- Sort a file list by relative path (`sorted(base_dir.rglob(...))`;
    string order stands in for path-component order, which coincides on
    the single-directory fixtures and is not load-bearing for any
    claim — it only fixes the report order). -/
def sortByPath {α : Type} (files : List (String × α)) : List (String × α) :=
  files.foldr insertByPath []

/-- Membership of a path among a tree's files (`current_file.exists()` /
    the `base_rels` set test). -/
def lookupPath {α : Type} (files : List (String × α)) (p : String) : Option α :=
  files.lookup p

/-- Embedding of `diff_compiled_files` of scripts/compiled_sql_diff.py:
    a directory tree is a list of (relative path, file text) pairs. -/
def diff_compiled_files (baseFiles currentFiles : List (String × List Char))
    (db_name base_schema current_schema : List Char)
    (diffFn : List Char → List Char → List (List Char)) : List DiffFinding :=
  ((sortByPath baseFiles).filterMap (fun bf =>
    match lookupPath currentFiles bf.1 with
    | none =>
      some ⟨pathStem bf.1, bf.1, none, DiffStatus.missing_in_current, []⟩
    | some ctxt =>
      let base_sql := normalize_sql bf.2 db_name base_schema true true
      let current_sql := normalize_sql ctxt db_name current_schema true true
      if base_sql = current_sql then none
      else
        some ⟨pathStem bf.1, bf.1, none, DiffStatus.non_deterministic,
              diffFn base_sql current_sql⟩)) ++
  ((sortByPath currentFiles).filterMap (fun cf =>
    match lookupPath baseFiles cf.1 with
    | some _ => none
    | none => some ⟨pathStem cf.1, cf.1, none, DiffStatus.missing_in_base, []⟩))

/-- Lookup dict of the current manifest's project models
    (`current_nodes` of `diff_manifests`). -/
def currentNodes (cm : Manifest) (project : Option String) :
    List (String × Node) :=
  cm.nodes.foldl (fun acc p =>
    if isRetainedModel project p then upsert acc p.1 p.2 else acc) []

/-- Loop body of `diff_manifests` for one base-manifest node. -/
def diffManifestNode (curr : List (String × Node)) (project : Option String)
    (db_name base_schema current_schema : List Char)
    (diffFn : List Char → List Char → List (List Char))
    (p : String × Node) : Option DiffFinding :=
  if isRetainedModel project p then
    let name := p.2.name.getD p.1
    let base_compiled := p.2.compiled_code.getD []
    match curr.lookup p.1 with
    | none =>
      some ⟨name, p.2.path.getD "", none, DiffStatus.missing_in_current, []⟩
    | some cnode =>
      let current_compiled := cnode.compiled_code.getD []
      if base_compiled = [] ∨ current_compiled = [] then none
      else
        let base_norm := normalize_sql base_compiled db_name base_schema true true
        let current_norm :=
          normalize_sql current_compiled db_name current_schema true true
        if base_norm = current_norm then none
        else
          some ⟨name, p.2.path.getD "",
                some (p.2.config_materialized.getD "unknown"),
                DiffStatus.non_deterministic, diffFn base_norm current_norm⟩
  else none

/-- Embedding of `diff_manifests` of scripts/compiled_sql_diff.py: the
    project name is taken from the base manifest, the current manifest
    only serves as a lookup table, and only base-manifest nodes are
    iterated. -/
def diff_manifests (bm cm : Manifest)
    (db_name base_schema current_schema : List Char)
    (diffFn : List Char → List Char → List (List Char)) : List DiffFinding :=
  bm.nodes.filterMap
    (diffManifestNode (currentNodes cm bm.project_name) bm.project_name
      db_name base_schema current_schema diffFn)

/-- The `non_deterministic` list of the diff engine's `--json` output
    (`main` of scripts/compiled_sql_diff.py filters the findings by
    status). -/
def jsonNonDeterministic (findings : List DiffFinding) : List DiffFinding :=
  findings.filter (fun f => decide (f.status = DiffStatus.non_deterministic))

/-! Shared lemmas about the text-rewriting machinery. -/

theorem dropLit_eq_append : ∀ (P cs : List Char)
    (x : {r : List Char // r.length + P.length = cs.length}),
    dropLit P cs = some x → cs = P ++ x.1
  | [], cs, x, h => by
    simp only [dropLit] at h
    cases h
    simp
  | _ :: _, [], x, h => by simp [dropLit] at h
  | l :: ls, c :: cs, x, h => by
    simp only [dropLit] at h
    split at h
    · rename_i hcl
      split at h
      · rename_i r hpr hy
        cases h
        have hrec := dropLit_eq_append ls cs ⟨r, hpr⟩ hy
        simp only [hcl, hrec]
        simp
      · exact absurd h (by simp)
    · exact absurd h (by simp)

theorem substScanF_eq_self (p0 : Char) (pt R : List Char) (useB : Bool) :
    ∀ (fuel : Nat) (prev : Option Char) (s : List Char), ¬ (p0 :: pt) <:+: s →
      substScanF p0 pt R useB fuel prev s = s := by
  intro fuel prev s
  induction fuel, prev, s using substScanF.induct p0 pt R useB with
  | case1 prev s =>
    intro _
    rfl
  | case2 fuel prev =>
    intro _
    rfl
  | case3 fuel prev c rest rest' hpr heq hcond ih =>
    intro h
    have hp : (p0 :: pt) <+: c :: rest := by
      rw [dropLit_eq_append _ _ _ heq]
      exact List.prefix_append _ _
    exact absurd hp.isInfix h
  | case4 fuel prev c rest rest' hpr heq hcond ih =>
    intro h
    have hp : (p0 :: pt) <+: c :: rest := by
      rw [dropLit_eq_append _ _ _ heq]
      exact List.prefix_append _ _
    exact absurd hp.isInfix h
  | case5 fuel prev c rest heq ih =>
    intro h
    rw [substScanF.eq_def]
    simp only [heq]
    rw [ih (fun hc => h (List.infix_cons hc))]

theorem substScan_eq_self (p0 : Char) (pt R : List Char) (useB : Bool)
    (prev : Option Char) (s : List Char) (h : ¬ (p0 :: pt) <:+: s) :
    substScan p0 pt R useB prev s = s :=
  substScanF_eq_self p0 pt R useB s.length prev s h

theorem stripBlockF_eq_self :
    ∀ (fuel : Nat) (s : List Char), ¬ (['/', '*'] <:+: s) → stripBlockF fuel s = s := by
  intro fuel s
  induction fuel, s using stripBlockF.induct with
  | case1 s =>
    intro _
    rfl
  | case2 fuel =>
    intro _
    rfl
  | case3 fuel rest rest' hpr heq ih =>
    intro h
    exact absurd ⟨[], rest, rfl⟩ h
  | case4 fuel rest heq ih =>
    intro h
    exact absurd ⟨[], rest, rfl⟩ h
  | case5 fuel c rest hne ih =>
    intro h
    rw [stripBlockF.eq_4 fuel c rest hne]
    rw [ih (fun hc => h (List.infix_cons hc))]

theorem stripBlock_eq_self (s : List Char) (h : ¬ (['/', '*'] <:+: s)) :
    stripBlock s = s :=
  stripBlockF_eq_self s.length s h

theorem stripLineF_eq_self :
    ∀ (fuel : Nat) (s : List Char), ¬ (['-', '-'] <:+: s) → stripLineF fuel s = s := by
  intro fuel s
  induction fuel, s using stripLineF.induct with
  | case1 s =>
    intro _
    rfl
  | case2 fuel =>
    intro _
    rfl
  | case3 fuel rest ih =>
    intro h
    exact absurd ⟨[], rest, rfl⟩ h
  | case4 fuel c rest hne ih =>
    intro h
    rw [stripLineF.eq_4 fuel c rest hne]
    rw [ih (fun hc => h (List.infix_cons hc))]

theorem stripLine_eq_self (s : List Char) (h : ¬ (['-', '-'] <:+: s)) :
    stripLine s = s :=
  stripLineF_eq_self s.length s h

theorem strip_sql_comments_eq_self (s : List Char)
    (h1 : ¬ (['/', '*'] <:+: s)) (h2 : ¬ (['-', '-'] <:+: s)) :
    strip_sql_comments s = s := by
  unfold strip_sql_comments
  rw [stripBlock_eq_self s h1, stripLine_eq_self s h2]

theorem tryBatchId_castOpen (cs : List Char)
    (x : {r : List Char // r.length < cs.length}) (h : tryBatchId cs = some x) :
    castOpen <+: cs := by
  unfold tryBatchId at h
  split at h
  · exact absurd h (by simp)
  · rename_i y hy
    exact dropLit_eq_append _ _ _ hy ▸ List.prefix_append _ _

theorem tryBatchTs_castOpen (cs : List Char)
    (x : {r : List Char // r.length < cs.length}) (h : tryBatchTs cs = some x) :
    castOpen <+: cs := by
  unfold tryBatchTs at h
  split at h
  · exact absurd h (by simp)
  · rename_i y hy
    exact dropLit_eq_append _ _ _ hy ▸ List.prefix_append _ _

theorem scanSubstF_eq_self
    (tryAt : (cs : List Char) → Option {r : List Char // r.length < cs.length})
    (R Q : List Char)
    (hQ : ∀ cs x, tryAt cs = some x → Q <+: cs) :
    ∀ (fuel : Nat) (s : List Char), ¬ Q <:+: s → scanSubstF tryAt R fuel s = s := by
  intro fuel s
  induction fuel, s using scanSubstF.induct tryAt R with
  | case1 s =>
    intro _
    rfl
  | case2 fuel =>
    intro _
    rfl
  | case3 fuel c rest rest' hpr heq ih =>
    intro h
    exact absurd (hQ _ _ heq).isInfix h
  | case4 fuel c rest heq ih =>
    intro h
    rw [scanSubstF.eq_def]
    simp only [heq]
    rw [ih (fun hc => h (List.infix_cons hc))]

theorem scanSubst_eq_self
    (tryAt : (cs : List Char) → Option {r : List Char // r.length < cs.length})
    (R Q : List Char)
    (hQ : ∀ cs x, tryAt cs = some x → Q <+: cs)
    (s : List Char) (h : ¬ Q <:+: s) : scanSubst tryAt R s = s :=
  scanSubstF_eq_self tryAt R Q hQ s.length s h

theorem batchSteps_eq_self (s : List Char) (h : ¬ castOpen <:+: s) :
    batchSteps s = s := by
  unfold batchSteps
  rw [scanSubst_eq_self tryBatchId batchIdRepl castOpen tryBatchId_castOpen s h,
      scanSubst_eq_self tryBatchTs batchTsRepl castOpen tryBatchTs_castOpen s h]

theorem dbSchemaPat_ne_nil (db schema : List Char) : dbSchemaPat db schema ≠ [] := by
  unfold dbSchemaPat
  cases db <;> simp

theorem rewriteDbSchema_eq_self (db schema : List Char) (s : List Char)
    (h : ¬ dbSchemaPat db schema <:+: s) : rewriteDbSchema db schema s = s := by
  unfold rewriteDbSchema
  split
  · rfl
  · rename_i p0 pt heq
    exact substScan_eq_self p0 pt _ true none s (heq ▸ h)

theorem rewriteQuoted_eq_self (schema : List Char) (s : List Char)
    (h : ¬ quotedPat schema <:+: s) : rewriteQuoted schema s = s := by
  unfold rewriteQuoted
  exact substScan_eq_self _ _ _ false none s h

theorem schemaSteps_eq_self (db schema : List Char) (s : List Char)
    (h1 : ¬ dbSchemaPat db schema <:+: s) (h2 : ¬ quotedPat schema <:+: s) :
    schemaSteps db schema s = s := by
  unfold schemaSteps
  split
  · rw [rewriteDbSchema_eq_self db schema s h1, rewriteQuoted_eq_self schema s h2]
  · rfl

/-! Lemmas about the trailing-whitespace normalization step. -/

theorem wsGo_of_all_ht : ∀ (cs pend : List Char),
    (∀ c ∈ cs, c = ' ' ∨ c = '\t') → wsGo pend cs = pend ++ cs
  | [], pend, h => by simp [wsGo]
  | c :: cs, pend, h => by
    have hc : c = ' ' ∨ c = '\t' := h c (by simp)
    simp only [wsGo]
    rw [if_pos hc, wsGo_of_all_ht cs (pend ++ [c]) (fun d hd => h d (by simp [hd]))]
    simp

theorem wsGo_append_of_all_ht : ∀ (ht pend rest : List Char),
    (∀ c ∈ ht, c = ' ' ∨ c = '\t') → wsGo pend (ht ++ rest) = wsGo (pend ++ ht) rest
  | [], pend, rest, h => by simp
  | c :: ht, pend, rest, h => by
    have hc : c = ' ' ∨ c = '\t' := h c (by simp)
    rw [show (c :: ht) ++ rest = c :: (ht ++ rest) from rfl]
    rw [show wsGo pend (c :: (ht ++ rest)) = wsGo (pend ++ [c]) (ht ++ rest) from by
      simp [wsGo, hc]]
    rw [wsGo_append_of_all_ht ht (pend ++ [c]) rest (fun d hd => h d (by simp [hd]))]
    simp

theorem wsGo_idem : ∀ (cs pend : List Char),
    (∀ c ∈ pend, c = ' ' ∨ c = '\t') → wsGo [] (wsGo pend cs) = wsGo pend cs
  | [], pend, h => by
    simp only [wsGo]
    simpa using wsGo_of_all_ht pend [] h
  | c :: cs, pend, h => by
    by_cases hc : c = ' ' ∨ c = '\t'
    · simp only [wsGo]
      rw [if_pos hc]
      refine wsGo_idem cs (pend ++ [c]) (fun d hd => ?_)
      rcases List.mem_append.mp hd with h1 | h1
      · exact h d h1
      · rw [List.mem_singleton] at h1
        subst h1
        exact hc
    · by_cases hn : c = '\n'
      · subst hn
        rw [show wsGo pend ('\n' :: cs) = '\n' :: wsGo [] cs from by simp [wsGo, hc]]
        rw [show wsGo [] ('\n' :: wsGo [] cs) = '\n' :: wsGo [] (wsGo [] cs) from by
          simp [wsGo, hc]]
        rw [wsGo_idem cs [] (by simp)]
      · rw [show wsGo pend (c :: cs) = pend ++ c :: wsGo [] cs from by
          simp [wsGo, hc, hn]]
        rw [wsGo_append_of_all_ht pend [] _ h]
        rw [show wsGo ([] ++ pend) (c :: wsGo [] cs) = pend ++ c :: wsGo [] (wsGo [] cs)
          from by simp [wsGo, hc, hn]]
        rw [wsGo_idem cs [] (by simp)]

theorem wsStrip_idem (s : List Char) : wsStrip (wsStrip s) = wsStrip s :=
  wsGo_idem s [] (by simp)

/-! Decomposition lemmas for prefixes and infixes of an append. -/

theorem pref_of_append_split {α : Type _} {Q A B : List α} (h : Q <+: A ++ B) :
    Q <+: A ∨ ∃ T, Q = A ++ T ∧ T <+: B := by
  obtain ⟨w, hw⟩ := h
  rcases List.append_eq_append_iff.mp hw with ⟨a2, ha1, _⟩ | ⟨c2, hc1, hc2⟩
  · exact Or.inl ⟨a2, ha1.symm⟩
  · exact Or.inr ⟨c2, hc1, ⟨w, hc2.symm⟩⟩

theorem infix_of_append_split {α : Type _} {P Y Z : List α} (h : P <:+: Y ++ Z) :
    P <:+: Y ∨ P <:+: Z ∨
      ∃ P1 P2, P = P1 ++ P2 ∧ P1 ≠ [] ∧ P2 ≠ [] ∧ P1 <:+ Y ∧ P2 <+: Z := by
  obtain ⟨u, v, huv⟩ := h
  have h2 : u ++ (P ++ v) = Y ++ Z := by rw [← List.append_assoc]; exact huv
  rcases List.append_eq_append_iff.mp h2 with ⟨a2, hY, hPv⟩ | ⟨c2, hu, hZ⟩
  · rcases List.append_eq_append_iff.mp hPv with ⟨w, ha2, hv⟩ | ⟨c2, hP, hZ2⟩
    · refine Or.inl ⟨u, w, ?_⟩
      rw [hY, ha2, List.append_assoc]
    · by_cases hA : a2 = []
      · subst hA
        simp only [List.nil_append] at hP
        refine Or.inr (Or.inl ⟨[], v, ?_⟩)
        rw [hZ2, hP]
        simp
      · by_cases hC : c2 = []
        · refine Or.inl ?_
          have hsfx : P <:+ Y := ⟨u, by rw [hY, hP, hC]; simp⟩
          exact hsfx.isInfix
        · exact Or.inr (Or.inr ⟨a2, c2, hP, hA, hC, ⟨u, hY.symm⟩, ⟨v, hZ2.symm⟩⟩)
  · refine Or.inr (Or.inl ⟨c2, v, ?_⟩)
    rw [hZ, List.append_assoc]

/-! Newline-free texts survive whitespace normalization: any
    newline-free prefix or infix of the normalized text already occurs
    in the original (the rewrite only deletes runs that sit directly in
    front of a kept newline). -/

theorem wsGo_pref_preserved : ∀ (cs pend Q : List Char),
    (∀ c ∈ pend, c = ' ' ∨ c = '\t') → ('\n' : Char) ∉ Q →
    Q <+: wsGo pend cs → Q <+: pend ++ cs
  | [], pend, Q, hp, hn, h => by
    simp only [wsGo] at h
    rw [List.append_nil]
    exact h
  | c :: cs, pend, Q, hp, hn, h => by
    by_cases hc : c = ' ' ∨ c = '\t'
    · simp only [wsGo, if_pos hc] at h
      have hrec := wsGo_pref_preserved cs (pend ++ [c]) Q
        (fun d hd => by
          rcases List.mem_append.mp hd with h1 | h1
          · exact hp d h1
          · rw [List.mem_singleton] at h1
            subst h1
            exact hc) hn h
      simpa [List.append_assoc] using hrec
    · by_cases hnl : c = '\n'
      · subst hnl
        simp only [wsGo, if_neg hc, if_pos rfl] at h
        rcases List.prefix_cons_iff.mp h with hQ | ⟨t, hQt, _⟩
        · subst hQ
          exact List.nil_prefix
        · exact absurd (by rw [hQt]; simp : ('\n' : Char) ∈ Q) hn
      · simp only [wsGo, if_neg hc, if_neg hnl] at h
        rcases pref_of_append_split h with h1 | ⟨T, hQT, hT⟩
        · exact h1.trans (List.prefix_append pend (c :: cs))
        · rcases List.prefix_cons_iff.mp hT with hT0 | ⟨t, hTt, ht⟩
          · subst hT0
            rw [hQT, List.append_nil]
            exact List.prefix_append pend (c :: cs)
          · have hnt : ('\n' : Char) ∉ t := fun hm => hn (by rw [hQT, hTt]; simp [hm])
            have ht2 : t <+: cs := by
              simpa using wsGo_pref_preserved cs [] t (by simp) hnt ht
            obtain ⟨w, hw⟩ := ht2
            refine ⟨w, ?_⟩
            rw [hQT, hTt, ← hw]
            simp

theorem wsGo_infix_preserved : ∀ (cs pend P : List Char),
    (∀ c ∈ pend, c = ' ' ∨ c = '\t') → ('\n' : Char) ∉ P →
    P <:+: wsGo pend cs → P <:+: pend ++ cs
  | [], pend, P, hp, hn, h => by
    simp only [wsGo] at h
    exact h.trans (List.prefix_append pend []).isInfix
  | c :: cs, pend, P, hp, hn, h => by
    by_cases hc : c = ' ' ∨ c = '\t'
    · simp only [wsGo, if_pos hc] at h
      have hrec := wsGo_infix_preserved cs (pend ++ [c]) P
        (fun d hd => by
          rcases List.mem_append.mp hd with h1 | h1
          · exact hp d h1
          · rw [List.mem_singleton] at h1
            subst h1
            exact hc) hn h
      simpa [List.append_assoc] using hrec
    · by_cases hnl : c = '\n'
      · subst hnl
        simp only [wsGo, if_neg hc, if_pos rfl] at h
        rcases List.infix_cons_iff.mp h with hpre | hinf
        · rcases List.prefix_cons_iff.mp hpre with hP | ⟨t, hPt, _⟩
          · subst hP
            exact List.nil_infix
          · exact absurd (by rw [hPt]; simp : ('\n' : Char) ∈ P) hn
        · have hrec := wsGo_infix_preserved cs [] P (by simp) hn hinf
          simp only [List.nil_append] at hrec
          exact hrec.trans
            (((List.suffix_cons '\n' cs).trans (List.suffix_append pend ('\n' :: cs))).isInfix)
      · simp only [wsGo, if_neg hc, if_neg hnl] at h
        rcases infix_of_append_split h with h1 | h1 | ⟨P1, P2, hP, hP1n, hP2n, hs, hpre⟩
        · exact h1.trans (List.prefix_append pend (c :: cs)).isInfix
        · rcases List.infix_cons_iff.mp h1 with hpre | hinf
          · rcases List.prefix_cons_iff.mp hpre with hP0 | ⟨t, hPt, ht⟩
            · subst hP0
              exact List.nil_infix
            · have hnt : ('\n' : Char) ∉ t := fun hm => hn (by rw [hPt]; simp [hm])
              have ht2 : t <+: cs := by
                simpa using wsGo_pref_preserved cs [] t (by simp) hnt ht
              have hPc : P <+: c :: cs := by
                rw [hPt]
                exact List.cons_prefix_cons.mpr ⟨rfl, ht2⟩
              exact hPc.isInfix.trans (List.suffix_append pend (c :: cs)).isInfix
          · have hrec := wsGo_infix_preserved cs [] P (by simp) hn hinf
            simp only [List.nil_append] at hrec
            exact hrec.trans
              (((List.suffix_cons c cs).trans (List.suffix_append pend (c :: cs))).isInfix)
        · rcases List.prefix_cons_iff.mp hpre with hP20 | ⟨t, hP2t, ht⟩
          · exact absurd hP20 hP2n
          · have hnt : ('\n' : Char) ∉ t := fun hm => hn (by rw [hP, hP2t]; simp [hm])
            have ht2 : t <+: cs := by
              simpa using wsGo_pref_preserved cs [] t (by simp) hnt ht
            obtain ⟨u, hu⟩ := hs
            obtain ⟨w, hw⟩ := ht2
            refine ⟨u, w, ?_⟩
            rw [hP, hP2t, ← hu, ← hw]
            simp

theorem wsStrip_preserves_no_occurrence {P s : List Char} (hn : ('\n' : Char) ∉ P)
    (h : ¬ P <:+: s) : ¬ P <:+: wsStrip s := fun hc =>
  h (by simpa using wsGo_infix_preserved s [] P (by simp) hn hc)

theorem normalize_sql_eq_wsStrip (s db schema : List Char)
    (h1 : ¬ (['/', '*'] <:+: s)) (h2 : ¬ (['-', '-'] <:+: s))
    (h3 : ¬ dbSchemaPat db schema <:+: s) (h4 : ¬ quotedPat schema <:+: s)
    (h5 : ¬ castOpen <:+: s) :
    normalize_sql s db schema true true = wsStrip s := by
  have hdef : normalize_sql s db schema true true =
      wsStrip (batchSteps (schemaSteps db schema (strip_sql_comments s))) := rfl
  rw [hdef, strip_sql_comments_eq_self s h1 h2, schemaSteps_eq_self db schema s h3 h4,
      batchSteps_eq_self s h5]

/-- C4 (counterexample): the SQL normalizer is not idempotent.  Removing
    the block comment of `//*x*/* y */` splices the leading `/` and the
    trailing `* y */` into a fresh block comment `/* y */`, which a
    second normalization removes entirely. -/
theorem c4_counterexample_normalize_not_idempotent :
    normalize_sql (normalize_sql "//*x*/* y */".data "d".data "s".data true true)
        "d".data "s".data true true ≠
      normalize_sql "//*x*/* y */".data "d".data "s".data true true := by
  decide

/-- C4 (amended): the normalizer is idempotent on inputs that contain no
    comment delimiter (`/*` or `--`), none of the schema-reference shapes
    (`db.schema.` or the quoted schema identifier), and no batch-metadata
    opening `cast('`, for newline-free database and schema names: every
    rewriting stage except whitespace normalization is then the identity,
    whitespace normalization is idempotent, and it cannot create any of
    the newline-free trigger shapes. -/
theorem c4_normalize_sql_idempotent_amended (s db schema : List Char)
    (h1 : ¬ (['/', '*'] <:+: s)) (h2 : ¬ (['-', '-'] <:+: s))
    (h3 : ¬ dbSchemaPat db schema <:+: s) (h4 : ¬ quotedPat schema <:+: s)
    (h5 : ¬ castOpen <:+: s)
    (hdb : ('\n' : Char) ∉ db) (hschema : ('\n' : Char) ∉ schema) :
    normalize_sql (normalize_sql s db schema true true) db schema true true =
      normalize_sql s db schema true true := by
  have hn3 : ('\n' : Char) ∉ dbSchemaPat db schema := by
    intro hm
    rcases List.mem_append.mp hm with hm1 | hm2
    · exact hdb hm1
    · rcases List.mem_cons.mp hm2 with hm3 | hm4
      · exact absurd hm3 (by decide)
      · rcases List.mem_append.mp hm4 with hm5 | hm6
        · exact hschema hm5
        · rw [List.mem_singleton] at hm6
          exact absurd hm6 (by decide)
  have hn4 : ('\n' : Char) ∉ quotedPat schema := by
    intro hm
    rcases List.mem_cons.mp hm with hm1 | hm2
    · exact absurd hm1 (by decide)
    · rcases List.mem_append.mp hm2 with hm3 | hm4
      · exact hschema hm3
      · rw [List.mem_singleton] at hm4
        exact absurd hm4 (by decide)
  rw [normalize_sql_eq_wsStrip s db schema h1 h2 h3 h4 h5]
  rw [normalize_sql_eq_wsStrip (wsStrip s) db schema
    (wsStrip_preserves_no_occurrence (by decide) h1)
    (wsStrip_preserves_no_occurrence (by decide) h2)
    (wsStrip_preserves_no_occurrence hn3 h3)
    (wsStrip_preserves_no_occurrence hn4 h4)
    (wsStrip_preserves_no_occurrence (by decide) h5)]
  exact wsStrip_idem s

/-- C4 (witness): idempotence on a concrete SQL text with trailing
    whitespace, database `tpch` and schema `base`. -/
theorem c4_witness_normalize_sql_idempotent :
    normalize_sql (normalize_sql "select a, b from t \nwhere c = d".data
        "tpch".data "base".data true true) "tpch".data "base".data true true =
      normalize_sql "select a, b from t \nwhere c = d".data
        "tpch".data "base".data true true :=
  c4_normalize_sql_idempotent_amended "select a, b from t \nwhere c = d".data
    "tpch".data "base".data (by decide) (by decide) (by decide) (by decide)
    (by decide) (by decide) (by decide)

/-- C5: the schema-rewriting steps of the normalizer are anchored to the
    exact dotted (`db.schema.`) and quoted (`"schema"`) reference shapes:
    a text that contains neither shape is left entirely unchanged.  In
    particular a SQL keyword phrase in which the schema name occurs only
    as a substring of a larger token is never rewritten. -/
theorem c5_schema_rewrite_keyword_safe (db schema s : List Char)
    (h1 : ¬ dbSchemaPat db schema <:+: s) (h2 : ¬ quotedPat schema <:+: s) :
    schemaSteps db schema s = s :=
  schemaSteps_eq_self db schema s h1 h2

/-- C5 (witness): with schema name `current`, a window-frame clause with
    the keyword phrase `CURRENT ROW` and the token `current_date` are
    left unchanged by the schema rewriting. -/
theorem c5_witness_current_row_unchanged :
    schemaSteps "tpch".data "current".data
      "select sum(x) over (rows between unbounded preceding and CURRENT ROW), current_date from t".data =
    "select sum(x) over (rows between unbounded preceding and CURRENT ROW), current_date from t".data :=
  c5_schema_rewrite_keyword_safe "tpch".data "current".data _ (by decide) (by decide)

/-! Claims about the pattern scanner. -/

/-- C2: a model whose comment-stripped source matches none of the three
    signatures of `CONDITIONAL_PATTERNS` — no target-name reference, no
    target-schema reference and no build-time clock reference — yields
    no finding; in particular a source holding only the
    conditional-materialization marker `is_incremental()` and the
    self-reference marker of a templated model is never flagged. -/
theorem c2_scanner_precision (name : String) (m : ModelRec)
    (h1 : matchTargetName (strip_sql_comments m.raw_code) = false)
    (h2 : matchTargetSchema (strip_sql_comments m.raw_code) = false)
    (h3 : matchTimeFn (strip_sql_comments m.raw_code) = false) :
    modelFinding name m = none := by
  unfold modelFinding
  dsimp only
  split
  · rfl
  · have hfil : (CONDITIONAL_PATTERNS.filter
        (fun p => p.matcher (strip_sql_comments m.raw_code))) = [] := by
      simp [CONDITIONAL_PATTERNS, List.filter, h1, h2, h3]
    rw [hfil]
    simp

/-- C2 (witness): the source
    `{% if is_incremental() %}where d > (select max(d) from {{ this }}){% endif %}`
    matches no signature and yields no finding. -/
theorem c2_witness_incremental_only_source :
    modelFinding "cond_model"
      ⟨"incremental", "models/cond_model.sql", [],
        "\x7b% if is_incremental() %\x7dwhere d > (select max(d) from \x7b\x7b this \x7d\x7d)\x7b% endif %\x7d".data⟩ =
      none :=
  c2_scanner_precision "cond_model" _ (by decide) (by decide) (by decide)

/-- C3: a dotted target-name reference surviving comment stripping yields
    a finding that carries the `target.name` signature, and a reference
    that does not survive comment stripping (for example one occurring
    only inside a `--` line comment or a `/* */` block comment) never
    contributes that signature to any finding. -/
theorem c3_target_name_comment_stripping (name : String) (m : ModelRec) :
    (matchTargetName (strip_sql_comments m.raw_code) = true →
      ∃ f, modelFinding name m = some f ∧
        "target.name" ∈ f.patterns.map (fun mp => mp.pattern)) ∧
    (matchTargetName (strip_sql_comments m.raw_code) = false →
      ∀ f, modelFinding name m = some f →
        "target.name" ∉ f.patterns.map (fun mp => mp.pattern)) := by
  constructor
  · intro h
    have hraw : ¬ m.raw_code = [] := by
      intro h0
      rw [h0] at h
      exact absurd h (by decide)
    unfold modelFinding
    dsimp only
    rw [if_neg hraw]
    have hfil : (CONDITIONAL_PATTERNS.filter
          (fun p => p.matcher (strip_sql_comments m.raw_code))) =
        ⟨"target.name", matchTargetName, "strong",
          "SQL varies by target environment - different targets produce different queries"⟩ ::
        ((CONDITIONAL_PATTERNS.drop 1).filter
          (fun p => p.matcher (strip_sql_comments m.raw_code))) := by
      simp [CONDITIONAL_PATTERNS, List.filter, h]
    rw [hfil]
    simp

  · intro h f hf hmem
    unfold modelFinding at hf
    dsimp only at hf
    split at hf
    · exact absurd hf (by simp)
    · split at hf
      · exact absurd hf (by simp)
      · rename_i hne
        cases hf
        simp only [List.map_map, List.mem_map] at hmem
        obtain ⟨p, hp, hpn⟩ := hmem
        rw [List.mem_filter] at hp
        have hptab := hp.1
        have hpm := hp.2
        simp only [CONDITIONAL_PATTERNS, List.mem_cons, List.not_mem_nil, or_false] at hptab
        rcases hptab with hp1 | hp2 | hp3
        · rw [hp1] at hpm
          exact absurd hpm (by simp [h])
        · rw [hp2] at hpn
          exact absurd hpn (by decide)
        · rw [hp3] at hpn
          exact absurd hpn (by decide)

/-- C3 (witness): `target.name` in plain SQL is flagged with its
    signature, while the same reference inside a `--` line comment or a
    `/* */` block comment is not. -/
theorem c3_witness_comment_variants :
    (∃ f, modelFinding "m1"
        ⟨"table", "models/m1.sql", [], "select x from t where target.name = x".data⟩ =
          some f ∧ "target.name" ∈ f.patterns.map (fun mp => mp.pattern)) ∧
    (∀ f, modelFinding "m2"
        ⟨"table", "models/m2.sql", [], "-- target.name\nselect 1".data⟩ = some f →
        "target.name" ∉ f.patterns.map (fun mp => mp.pattern)) ∧
    (∀ f, modelFinding "m3"
        ⟨"table", "models/m3.sql", [], "/* target.name */ select 1".data⟩ = some f →
        "target.name" ∉ f.patterns.map (fun mp => mp.pattern)) :=
  ⟨(c3_target_name_comment_stripping "m1" _).1 (by decide),
   (c3_target_name_comment_stripping "m2" _).2 (by decide),
   (c3_target_name_comment_stripping "m3" _).2 (by decide)⟩

/-! Claims about the classifier. -/

theorem safe_signal_mem_iff (ma : ModelAnalysis) (sa : SourceAnalysis)
    (fs : List Finding) :
    (∃ s ∈ (classify ma sa fs).signals, s.signal = "safe_incremental") ↔
      safeIncremental ma fs ≠ [] := by
  constructor
  · rintro ⟨s, hs, hname⟩ hsafe
    simp only [classify] at hs
    rw [if_neg (not_ne_iff.mpr hsafe)] at hs
    simp only [List.append_assoc, List.nil_append] at hs
    rcases List.mem_append.mp hs with h1 | hs2
    · split at h1 <;>
        (simp only [List.mem_singleton] at h1; subst h1; simp at hname)
    · rcases List.mem_append.mp hs2 with h3 | hs3
      · split at h3
        · simp only [List.mem_singleton] at h3
          subst h3
          simp at hname
        · split at h3
          · simp only [List.mem_singleton] at h3
            subst h3
            simp at hname
          · exact absurd h3 (List.not_mem_nil s)
      · rcases List.mem_append.mp hs3 with h4 | h5
        · split at h4
          · split at h4
            · simp only [List.mem_singleton] at h4
              subst h4
              simp at hname
            · split at h4 <;>
                (simp only [List.mem_singleton] at h4; subst h4; simp at hname)
          · exact absurd h4 (List.not_mem_nil s)
        · split at h5
          · simp only [List.mem_singleton] at h5
            subst h5
            simp at hname
          · exact absurd h5 (List.not_mem_nil s)
  · intro hne
    refine ⟨⟨"safe_incremental", "moderate", "shared_base"⟩, ?_, rfl⟩
    simp only [classify]
    rw [if_pos hne]
    simp

/-- C1: the pattern scanner is the sole driver of the binary
    recommendation — `classify` recommends `isolated_base` exactly when
    the scanner produced at least one finding and `shared_base` exactly
    when it produced none, for every model analysis and every source
    analysis. -/
theorem c1_pattern_scanner_drives_recommendation (ma : ModelAnalysis)
    (sa : SourceAnalysis) :
    ((classify ma sa (scan_sql_patterns ma)).recommendation =
        Recommendation.isolated_base ↔ scan_sql_patterns ma ≠ []) ∧
    ((classify ma sa (scan_sql_patterns ma)).recommendation =
        Recommendation.shared_base ↔ scan_sql_patterns ma = []) := by
  have hrec : (classify ma sa (scan_sql_patterns ma)).recommendation =
      if (scan_sql_patterns ma).length > 0 then Recommendation.isolated_base
      else Recommendation.shared_base := rfl
  by_cases hf : scan_sql_patterns ma = []
  · rw [hrec, hf]
    simp
  · have hl : (scan_sql_patterns ma).length > 0 := List.length_pos.mpr hf
    rw [hrec, if_pos hl]
    simp [hf]

/-- C7 (counterexample): with one incremental model and no scanner
    finding the recommendation is `shared_base`, yet the
    `safe_incremental` signal is still emitted — the code emits it
    whenever an unflagged incremental model exists, regardless of the
    recommendation. -/
theorem c7_counterexample_safe_signal_under_shared_base :
    scan_sql_patterns
        ⟨1, ⟨0, 0, 0, 1, 0⟩, [⟨"inc1", "models/inc1.sql", none, none⟩], [],
          [("inc1", ⟨"incremental", "models/inc1.sql", [], "select 1 from t".data⟩)]⟩ =
      [] ∧
    (classify
        ⟨1, ⟨0, 0, 0, 1, 0⟩, [⟨"inc1", "models/inc1.sql", none, none⟩], [],
          [("inc1", ⟨"incremental", "models/inc1.sql", [], "select 1 from t".data⟩)]⟩
        ⟨0, 0, 0⟩ []).recommendation = Recommendation.shared_base ∧
    Signal.mk "safe_incremental" "moderate" "shared_base" ∈
      (classify
        ⟨1, ⟨0, 0, 0, 1, 0⟩, [⟨"inc1", "models/inc1.sql", none, none⟩], [],
          [("inc1", ⟨"incremental", "models/inc1.sql", [], "select 1 from t".data⟩)]⟩
        ⟨0, 0, 0⟩ []).signals := by
  decide

/-- C7 (amended): the informational `safe_incremental` signal appears in
    the signal list exactly when at least one incremental model was not
    flagged by the pattern scanner — under either recommendation, not
    only under `isolated_base`. -/
theorem c7_safe_incremental_signal_amended (ma : ModelAnalysis) (sa : SourceAnalysis) :
    (∃ s ∈ (classify ma sa (scan_sql_patterns ma)).signals,
        s.signal = "safe_incremental") ↔
      safeIncremental ma (scan_sql_patterns ma) ≠ [] :=
  safe_signal_mem_iff ma sa (scan_sql_patterns ma)

/-- C8: confidence resolution of `classify` — `high` exactly when either
    the scanner flagged at least one model and event-time coverage is
    100%, or no model is flagged; `medium` exactly when at least one
    model is flagged and coverage is below 100% (coverage is 0 when
    there are no sources). -/
theorem c8_confidence_resolution (ma : ModelAnalysis)
    (srcs : List (String × SourceEntry)) :
    ((classify ma (analyze_sources srcs) (scan_sql_patterns ma)).confidence =
        Confidence.high ↔
      (0 < (scan_sql_patterns ma).length ∧
        eventTimePct (analyze_sources srcs) = 100) ∨
      (scan_sql_patterns ma).length = 0) ∧
    ((classify ma (analyze_sources srcs) (scan_sql_patterns ma)).confidence =
        Confidence.medium ↔
      0 < (scan_sql_patterns ma).length ∧
        eventTimePct (analyze_sources srcs) < 100) := by
  have hcount : (analyze_sources srcs).with_event_time ≤
      (analyze_sources srcs).total_sources := by
    simp only [analyze_sources]
    exact List.length_filter_le _ _
  have hle : eventTimePct (analyze_sources srcs) ≤ 100 := by
    unfold eventTimePct
    split
    · rename_i ht
      have ht2 : (0 : ℚ) < ((analyze_sources srcs).total_sources : ℚ) := by
        exact_mod_cast ht
      rw [div_mul_eq_mul_div, div_le_iff₀ ht2]
      have hc2 : ((analyze_sources srcs).with_event_time : ℚ) ≤
          ((analyze_sources srcs).total_sources : ℚ) := by exact_mod_cast hcount
      nlinarith
    · norm_num
  have hconf : (classify ma (analyze_sources srcs) (scan_sql_patterns ma)).confidence =
      if 0 < (scan_sql_patterns ma).length ∧
          eventTimePct (analyze_sources srcs) = 100 then Confidence.high
      else if 0 < (scan_sql_patterns ma).length then Confidence.medium
      else Confidence.high := rfl
  by_cases h1 : 0 < (scan_sql_patterns ma).length
  · by_cases h2 : eventTimePct (analyze_sources srcs) = 100
    · rw [hconf, if_pos ⟨h1, h2⟩]
      constructor
      · simp [h1, h2]
      · constructor
        · intro hx
          exact absurd hx (by simp)
        · rintro ⟨_, hpc⟩
          rw [h2] at hpc
          exact absurd hpc (lt_irrefl _)
    · rw [hconf, if_neg (fun hx => h2 hx.2), if_pos h1]
      have h2lt : eventTimePct (analyze_sources srcs) < 100 := lt_of_le_of_ne hle h2
      constructor
      · constructor
        · intro hx
          exact absurd hx (by simp)
        · rintro (⟨_, hpc⟩ | hz)
          · exact absurd hpc h2
          · omega
      · simp [h1, h2lt]
  · rw [hconf, if_neg (fun hx => h1 hx.1), if_neg h1]
    constructor
    · exact ⟨fun _ => Or.inr (by omega), fun _ => rfl⟩
    · constructor
      · intro hx
        exact absurd hx (by simp)
      · rintro ⟨hx, _⟩
        exact absurd hx h1

/-! Claims about the metadata extractor. -/

theorem bucketSum_bumpMat (c : MatCounts) (mat : String) :
    bucketSum (bumpMat c mat) = bucketSum c + 1 := by
  unfold bumpMat
  split_ifs <;> simp [bucketSum] <;> omega

theorem upsert_fresh {α : Type} : ∀ (l : List (String × α)) (k : String) (v : α),
    k ∉ l.map Prod.fst →
    (upsert l k v).length = l.length + 1 ∧
      (upsert l k v).map Prod.fst = l.map Prod.fst ++ [k]
  | [], k, v, _ => by simp [upsert]
  | (k', v') :: rest, k, v, h => by
    have hk : ¬ k' = k := fun he => h (by simp [he])
    have hrec := upsert_fresh rest k v (fun hm => h (by simp [hm]))
    simp only [upsert, if_neg hk]
    simp [hrec.1, hrec.2]

theorem amGo_counts_models :
    ∀ (nodes : List (String × Node)) (project : Option String)
      (counts : MatCounts) (models : List (String × ModelRec))
      (incs : List IncRec) (snaps : List SnapRec),
    bucketSum (amGo project nodes counts models incs snaps).1 =
      bucketSum counts +
        (nodes.filter (fun p => decide (isRetainedModel project p))).length ∧
    ((models.map Prod.fst ++
        (nodes.filter (fun p => decide (isRetainedModel project p))).map nodeKeyName).Nodup →
      (amGo project nodes counts models incs snaps).2.1.length =
        models.length +
          (nodes.filter (fun p => decide (isRetainedModel project p))).length)
  | [], project, counts, models, incs, snaps => by simp [amGo]
  | (uid, node) :: rest, project, counts, models, incs, snaps => by
    by_cases hb1 : ¬(node.resource_type = some "model" ∨
        node.resource_type = some "snapshot")
    · have hnr : ¬ isRetainedModel project (uid, node) := fun hr => hb1 (Or.inl hr.1)
      simp only [amGo, if_pos hb1]
      have hrec := amGo_counts_models rest project counts models incs snaps
      simpa [List.filter_cons, hnr] using hrec
    · rw [not_not] at hb1
      by_cases hb2 : node.package_name ≠ project
      · have hnr : ¬ isRetainedModel project (uid, node) := fun hr => hb2 hr.2
        simp only [amGo]
        rw [if_neg (not_not_intro hb1), if_pos hb2]
        have hrec := amGo_counts_models rest project counts models incs snaps
        simpa [List.filter_cons, hnr] using hrec
      · rw [not_ne_iff] at hb2
        by_cases hb3 : node.resource_type = some "snapshot"
        · have hnr : ¬ isRetainedModel project (uid, node) := by
            intro hr
            exact absurd (hr.1.symm.trans hb3) (by decide)
          simp only [amGo]
          rw [if_neg (not_not_intro hb1), if_neg (not_not_intro hb2), if_pos hb3]
          have hrec := amGo_counts_models rest project counts models incs
            (snaps ++ [⟨node.name.getD uid, node.path.getD "", node.config_strategy⟩])
          simpa [List.filter_cons, hnr] using hrec
        · have hrt : node.resource_type = some "model" := by
            rcases hb1 with h | h
            · exact h
            · exact absurd h hb3
          have hr : isRetainedModel project (uid, node) := ⟨hrt, hb2⟩
          have hfc : ((uid, node) :: rest).filter
                (fun p => decide (isRetainedModel project p)) =
              (uid, node) :: rest.filter (fun p => decide (isRetainedModel project p)) := by
            simp [List.filter_cons, hr]
          simp only [amGo]
          rw [if_neg (not_not_intro hb1), if_neg (not_not_intro hb2), if_neg hb3]
          have hrec := amGo_counts_models rest project
            (bumpMat counts (node.config_materialized.getD "unknown"))
            (upsert models (node.name.getD uid)
              ⟨node.config_materialized.getD "unknown", node.path.getD "",
               node.depends_on_nodes, node.raw_code.getD []⟩)
            (if node.config_materialized.getD "unknown" = "incremental" then
              incs ++ [⟨node.name.getD uid, node.path.getD "",
                node.config_incremental_strategy, node.config_unique_key⟩]
             else incs) snaps
          constructor
          · rw [hrec.1, bucketSum_bumpMat, hfc]
            simp only [List.length_cons]
            omega
          · intro hnd
            rw [hfc] at hnd
            simp only [List.map_cons] at hnd
            have hfresh : (node.name.getD uid) ∉ models.map Prod.fst := by
              intro hm
              exact (List.nodup_append.mp hnd).2.2 hm (by simp [nodeKeyName])
            have hup := upsert_fresh models (node.name.getD uid)
              (⟨node.config_materialized.getD "unknown", node.path.getD "",
                node.depends_on_nodes, node.raw_code.getD []⟩ : ModelRec) hfresh
            have hnd2 : ((upsert models (node.name.getD uid)
                  (⟨node.config_materialized.getD "unknown", node.path.getD "",
                    node.depends_on_nodes, node.raw_code.getD []⟩ : ModelRec)).map Prod.fst ++
                (rest.filter (fun p => decide (isRetainedModel project p))).map
                  nodeKeyName).Nodup := by
              rw [hup.2, List.append_assoc]
              simpa [nodeKeyName] using hnd
            rw [hrec.2 hnd2, hup.1, hfc]
            simp only [List.length_cons]
            omega

/-- C9 (amended): the bucket counts of `analyze_models` always sum to the
    number of retained model nodes (each node lands in exactly one
    bucket); this equals the reported `total_models` whenever the
    retained model nodes carry pairwise-distinct names (the `models`
    dict is keyed by name, so a duplicated name collapses there while
    still being counted twice in the buckets). -/
theorem c9_bucket_sum_amended (m : Manifest) :
    bucketSum (analyze_models m).materialization_counts =
      (m.nodes.filter (fun p => decide (isRetainedModel m.project_name p))).length ∧
    (((m.nodes.filter (fun p => decide (isRetainedModel m.project_name p))).map
        nodeKeyName).Nodup →
      (analyze_models m).total_models =
        (m.nodes.filter (fun p => decide (isRetainedModel m.project_name p))).length) := by
  have h := amGo_counts_models m.nodes m.project_name initCounts [] [] []
  constructor
  · simpa [analyze_models, initCounts, bucketSum] using h.1
  · intro hnd
    have h2 := h.2 (by simpa using hnd)
    simpa [analyze_models] using h2

/-- C9 (counterexample): two retained model nodes sharing the name `m`
    are each counted in a bucket (sum 2) but collapse to a single entry
    of the name-keyed model map, so the bucket sum differs from the
    reported total model count. -/
theorem c9_counterexample_duplicate_names :
    bucketSum (analyze_models ⟨some "p",
      [("model.p.m1",
        ⟨some "model", some "p", some "m", some "models/m.sql", some "table",
         none, none, none, [], some "select 1".data, none⟩),
       ("model.p.m2",
        ⟨some "model", some "p", some "m", some "models/m.sql", some "table",
         none, none, none, [], some "select 2".data, none⟩)],
      []⟩).materialization_counts ≠
    (analyze_models ⟨some "p",
      [("model.p.m1",
        ⟨some "model", some "p", some "m", some "models/m.sql", some "table",
         none, none, none, [], some "select 1".data, none⟩),
       ("model.p.m2",
        ⟨some "model", some "p", some "m", some "models/m.sql", some "table",
         none, none, none, [], some "select 2".data, none⟩)],
      []⟩).total_models := by
  decide

/-- C9 (witness): on a manifest with distinct model names (one table
    model, one incremental model, one snapshot, one foreign-package
    node) the bucket sum equals the reported total. -/
theorem c9_witness_distinct_names :
    (analyze_models ⟨some "p",
      [("model.p.a",
        ⟨some "model", some "p", some "a", some "models/a.sql", some "table",
         none, none, none, [], some "select 1".data, none⟩),
       ("model.p.b",
        ⟨some "model", some "p", some "b", some "models/b.sql", some "incremental",
         none, some "merge", some "id", [], some "select 2".data, none⟩),
       ("snapshot.p.s",
        ⟨some "snapshot", some "p", some "s", some "snapshots/s.sql", none,
         some "timestamp", none, none, [], none, none⟩),
       ("model.dep.x",
        ⟨some "model", some "dep", some "x", some "models/x.sql", some "view",
         none, none, none, [], some "select 3".data, none⟩)],
      []⟩).total_models =
    ((⟨some "p",
      [("model.p.a",
        ⟨some "model", some "p", some "a", some "models/a.sql", some "table",
         none, none, none, [], some "select 1".data, none⟩),
       ("model.p.b",
        ⟨some "model", some "p", some "b", some "models/b.sql", some "incremental",
         none, some "merge", some "id", [], some "select 2".data, none⟩),
       ("snapshot.p.s",
        ⟨some "snapshot", some "p", some "s", some "snapshots/s.sql", none,
         some "timestamp", none, none, [], none, none⟩),
       ("model.dep.x",
        ⟨some "model", some "dep", some "x", some "models/x.sql", some "view",
         none, none, none, [], some "select 3".data, none⟩)],
      []⟩ : Manifest).nodes.filter
        (fun p => decide (isRetainedModel (some "p") p))).length :=
  (c9_bucket_sum_amended _).2 (by decide)

/-! Claims about the diff engine. -/

theorem mem_insertByPath {α : Type} (x y : String × α) :
    ∀ (l : List (String × α)), x ∈ insertByPath y l ↔ x = y ∨ x ∈ l
  | [] => by simp [insertByPath]
  | z :: rest => by
    simp only [insertByPath]
    split
    · simp
    · rw [List.mem_cons, mem_insertByPath x y rest, List.mem_cons]
      tauto

theorem mem_sortByPath {α : Type} (x : String × α) :
    ∀ (l : List (String × α)), x ∈ sortByPath l ↔ x ∈ l
  | [] => by simp [sortByPath]
  | y :: rest => by
    simp only [sortByPath, List.foldr_cons]
    rw [show List.foldr insertByPath [] rest = sortByPath rest from rfl,
        mem_insertByPath x y (sortByPath rest), mem_sortByPath x rest,
        List.mem_cons]

/-- C6 (amended): in directory mode a model present on only one side is
    reported as `missing_in_current` / `missing_in_base` with an empty
    diff; in manifest mode a model present only in the base manifest is
    reported as `missing_in_current` with an empty diff, while a model
    present only in the current manifest yields no finding at all (every
    finding stems from a base-manifest node); every finding that is not
    `non_deterministic` carries an empty diff, and the JSON
    `non_deterministic` list contains only `non_deterministic` findings. -/
theorem c6_missing_findings_amended
    (bt ct : List (String × List Char)) (db bs cs2 : List Char)
    (diffFn : List Char → List Char → List (List Char)) :
    (∀ f ∈ diff_compiled_files bt ct db bs cs2 diffFn,
        f.status ≠ DiffStatus.non_deterministic → f.diff_lines = []) ∧
    (∀ p btxt, (p, btxt) ∈ bt → lookupPath ct p = none →
        ∃ f ∈ diff_compiled_files bt ct db bs cs2 diffFn,
          f.path = p ∧ f.status = DiffStatus.missing_in_current ∧
            f.diff_lines = []) ∧
    (∀ p ctxt, (p, ctxt) ∈ ct → lookupPath bt p = none →
        ∃ f ∈ diff_compiled_files bt ct db bs cs2 diffFn,
          f.path = p ∧ f.status = DiffStatus.missing_in_base ∧
            f.diff_lines = []) ∧
    (∀ (bm cm : Manifest) (uid : String) (node : Node),
        (uid, node) ∈ bm.nodes → isRetainedModel bm.project_name (uid, node) →
        (currentNodes cm bm.project_name).lookup uid = none →
        ∃ f ∈ diff_manifests bm cm db bs cs2 diffFn,
          f.model = node.name.getD uid ∧
            f.status = DiffStatus.missing_in_current ∧ f.diff_lines = []) ∧
    (∀ (bm cm : Manifest) (f : DiffFinding),
        f ∈ diff_manifests bm cm db bs cs2 diffFn →
        ∃ uid node, (uid, node) ∈ bm.nodes ∧ f.model = node.name.getD uid) ∧
    (∀ (findings : List DiffFinding) (f : DiffFinding),
        f ∈ jsonNonDeterministic findings →
        f.status = DiffStatus.non_deterministic) := by
  refine ⟨?_, ?_, ?_, ?_, ?_, ?_⟩
  · intro f hf hst
    unfold diff_compiled_files at hf
    rcases List.mem_append.mp hf with h1 | h2
    · obtain ⟨bf, _, hsome⟩ := List.mem_filterMap.mp h1
      split at hsome
      · cases hsome
        rfl
      · dsimp only at hsome
        split at hsome
        · exact absurd hsome (by simp)
        · cases hsome
          exact absurd rfl hst
    · obtain ⟨cf, _, hsome⟩ := List.mem_filterMap.mp h2
      split at hsome
      · exact absurd hsome (by simp)
      · cases hsome
        rfl
  · intro p btxt hmem hlk
    refine ⟨⟨pathStem p, p, none, DiffStatus.missing_in_current, []⟩, ?_, rfl, rfl, rfl⟩
    unfold diff_compiled_files
    refine List.mem_append_left _ (List.mem_filterMap.mpr
      ⟨(p, btxt), (mem_sortByPath _ _).mpr hmem, ?_⟩)
    simp only [hlk]
  · intro p ctxt hmem hlk
    refine ⟨⟨pathStem p, p, none, DiffStatus.missing_in_base, []⟩, ?_, rfl, rfl, rfl⟩
    unfold diff_compiled_files
    refine List.mem_append_right _ (List.mem_filterMap.mpr
      ⟨(p, ctxt), (mem_sortByPath _ _).mpr hmem, ?_⟩)
    simp only [hlk]
  · intro bm cm uid node hmem hret hlk
    refine ⟨⟨node.name.getD uid, node.path.getD "", none,
      DiffStatus.missing_in_current, []⟩, ?_, rfl, rfl, rfl⟩
    unfold diff_manifests
    refine List.mem_filterMap.mpr ⟨(uid, node), hmem, ?_⟩
    unfold diffManifestNode
    rw [if_pos hret]
    simp only [hlk]
  · intro bm cm f hf
    obtain ⟨⟨uid, node⟩, hmem, hsome⟩ := List.mem_filterMap.mp hf
    refine ⟨uid, node, hmem, ?_⟩
    unfold diffManifestNode at hsome
    split at hsome
    · dsimp only at hsome
      split at hsome
      · cases hsome
        rfl
      · try dsimp only at hsome
        split at hsome
        · exact absurd hsome (by simp)
        · try dsimp only at hsome
          split at hsome
          · exact absurd hsome (by simp)
          · cases hsome
            rfl
    · exact absurd hsome (by simp)
  · intro findings f hf
    have h := List.mem_filter.mp hf
    simpa using h.2

/-- C6 (counterexample): in manifest mode a model present only in the
    current manifest is not reported at all — the engine iterates only
    base-manifest nodes, so no `missing_in_base` finding exists. -/
theorem c6_counterexample_current_only_model_unreported :
    isRetainedModel (some "p")
      ("model.p.m",
        ⟨some "model", some "p", some "m", some "models/m.sql", some "table",
         none, none, none, [], none, some "select 1".data⟩) ∧
    ¬ ∃ f, f ∈ diff_manifests ⟨some "p", [], []⟩
        ⟨some "p",
          [("model.p.m",
            ⟨some "model", some "p", some "m", some "models/m.sql", some "table",
             none, none, none, [], none, some "select 1".data⟩)], []⟩
        "tpch".data "base".data "current".data (fun _ _ => []) ∧
      (f.status = DiffStatus.missing_in_base ∨
        f.status = DiffStatus.missing_in_current) := by
  constructor
  · exact ⟨rfl, rfl⟩
  · rintro ⟨f, hf, _⟩
    simp [diff_manifests] at hf

/-- C6 (witness): a file present only in the base tree is reported as
    `missing_in_current` with an empty diff-line list. -/
theorem c6_witness_missing_in_current :
    ∃ f ∈ diff_compiled_files [("a.sql", "select 1".data)] []
        "tpch".data "base".data "current".data (fun _ _ => []),
      f.path = "a.sql" ∧ f.status = DiffStatus.missing_in_current ∧
        f.diff_lines = [] :=
  (c6_missing_findings_amended [("a.sql", "select 1".data)] []
    "tpch".data "base".data "current".data (fun _ _ => [])).2.1
    "a.sql" "select 1".data (by simp) rfl

/-- C10: in manifest mode a model pair whose compiled text is empty or
    absent on either side is silently skipped — removing such a node
    from the base manifest leaves the findings unchanged, so the pair
    produces no finding of any status even when the other side has
    non-empty compiled text. -/
theorem c10_manifest_diff_skips_empty_compiled
    (pn : Option String) (l1 l2 : List (String × Node))
    (srcs : List (String × SourceEntry)) (uid : String) (node cnode : Node)
    (cm : Manifest) (db bs cs2 : List Char)
    (diffFn : List Char → List Char → List (List Char))
    (hres : node.resource_type = some "model")
    (hpkg : node.package_name = pn)
    (hcur : (currentNodes cm pn).lookup uid = some cnode)
    (hempty : node.compiled_code.getD [] = [] ∨ cnode.compiled_code.getD [] = []) :
    diff_manifests ⟨pn, l1 ++ (uid, node) :: l2, srcs⟩ cm db bs cs2 diffFn =
      diff_manifests ⟨pn, l1 ++ l2, srcs⟩ cm db bs cs2 diffFn := by
  have hnone : diffManifestNode (currentNodes cm pn) pn db bs cs2 diffFn
      (uid, node) = none := by
    unfold diffManifestNode
    rw [if_pos ⟨hres, hpkg⟩]
    simp only [hcur]
    rw [if_pos hempty]
  unfold diff_manifests
  dsimp only
  simp only [List.filterMap_append, List.filterMap_cons, hnone]

/-- C10 (witness): a base model with no compiled text produces no
    finding although the current side has non-empty compiled text. -/
theorem c10_witness_empty_base_compiled :
    diff_manifests
      ⟨some "p",
        [("u", ⟨some "model", some "p", some "m", some "models/m.sql",
          some "table", none, none, none, [], some "select 1".data, none⟩)], []⟩
      ⟨some "p",
        [("u", ⟨some "model", some "p", some "m", some "models/m.sql",
          some "table", none, none, none, [], none, some "select 1".data⟩)], []⟩
      "tpch".data "b".data "c".data (fun _ _ => []) =
    diff_manifests ⟨some "p", [], []⟩
      ⟨some "p",
        [("u", ⟨some "model", some "p", some "m", some "models/m.sql",
          some "table", none, none, none, [], none, some "select 1".data⟩)], []⟩
      "tpch".data "b".data "c".data (fun _ _ => []) :=
  c10_manifest_diff_skips_empty_compiled (some "p") [] [] [] "u"
    ⟨some "model", some "p", some "m", some "models/m.sql", some "table",
      none, none, none, [], some "select 1".data, none⟩
    ⟨some "model", some "p", some "m", some "models/m.sql", some "table",
      none, none, none, [], none, some "select 1".data⟩
    ⟨some "p",
      [("u", ⟨some "model", some "p", some "m", some "models/m.sql",
        some "table", none, none, none, [], none, some "select 1".data⟩)], []⟩
    "tpch".data "b".data "c".data (fun _ _ => []) rfl rfl rfl (Or.inl rfl)

end DbtTpch
